import Mathlib

/-!
# alpha_solve — verification of the context-propagation / sync core

Shallow embedding of the TypeScript sources of the `alpha_solve` repository:

* `src/app/models/context.model.ts`   — `Variable`, `Context`, (de)serialization
* `src/app/models/cell.model.ts`      — `Cell` union, `CellSerializer`
* `src/app/models/packet.model.ts`    — `Packet` union, `PacketFactory`
* `src/app/models/project.model.ts`   — context propagation and function resolution
* `src/app/services/packet-handler.service.ts` — remote packet application
* the application component (cell-state cache / echo suppression)

Modelling conventions:

* A JavaScript `Date` is the millisecond instant it stores (an integer).
  `Date.prototype.toISOString` renders that instant as an ISO-8601 string with
  millisecond precision and `new Date(iso)` parses it back exactly, so the
  ISO string is represented abstractly by the instant it denotes
  (`ISOString`); this keeps the date round trip lossless by the same argument
  as in the runtime.
* JavaScript `x || ''` on an optional string equals `Option.getD x ""`
  (the only falsy string is `""`, and `"" || '' = ''` as well); likewise
  `x || []` on an optional array equals `Option.getD x []` because every
  array object is truthy.
* The TS field name `variables` is a reserved token in Lean 4, so the
  corresponding Lean field is called `vars`.
* `async`/`await` code is purely sequential in effect (single-threaded event
  loop, every call awaited), so it is embedded as ordinary sequential
  functions.  A promise rejection (JS `throw`) is `ExecOutcome.threw`.
* In-place mutation of a cell array nested inside the tree (the handlers
  splice the aliased `parentArray` returned by `findCellWithParentArray`)
  is rendered functionally: the position of the containing array is a path
  of folder indices, and the mutated array is written back along that path.
-/

set_option linter.unusedVariables false

namespace AlphaSolve

/-- A JavaScript `Date`: the millisecond instant it stores. -/
structure Date where
  millis : Int
deriving DecidableEq, Repr

/-- An ISO-8601 timestamp string as produced by `Date.prototype.toISOString`,
represented abstractly by the millisecond instant it denotes (the rendering is
injective at millisecond precision and `new Date` inverts it exactly). -/
structure ISOString where
  instant : Int
deriving DecidableEq, Repr

/-- `date.toISOString()`. -/
def Date.toISOString (d : Date) : ISOString := ⟨d.millis⟩

/-- `new Date(isoString)`. -/
def newDate (s : ISOString) : Date := ⟨s.instant⟩

/-! ## Context model (`context.model.ts`) -/

/-- `VariableType = 'numerical' | 'analytical'`. -/
inductive VariableType where
  | numerical
  | analytical
deriving DecidableEq, Repr

/-- The `Variable` class: a named value with a type tag and value strings. -/
structure Variable where
  name : String
  type : VariableType
  values : List String
deriving DecidableEq, Repr

/-- `Context`: the ordered variables threaded between cells (TS field
`variables`). -/
structure Context where
  vars : List Variable
deriving DecidableEq, Repr

/-- `createContext(variables = [])` (the copy `[...variables]` is value-level
identity here). -/
def createContext (vs : List Variable) : Context := ⟨vs⟩

/-- `createContext()` with the default empty argument. -/
def emptyContext : Context := createContext []

/-- Wire form of a `Variable` (`Variable.prototype.toJSON`). -/
structure SerializedVariable where
  name : String
  type : VariableType
  values : List String
deriving DecidableEq, Repr

/-- `Variable.prototype.toJSON`. -/
def Variable.toJSON (v : Variable) : SerializedVariable :=
  ⟨v.name, v.type, v.values⟩

/-- `Variable.fromJSON` (no validation in the source: plain field reads). -/
def Variable.fromJSON (d : SerializedVariable) : Variable :=
  ⟨d.name, d.type, d.values⟩

/-- Wire form of a `Context`; the `variables` key may be absent on input
(`data.variables || []`). -/
structure SerializedContext where
  vars : Option (List SerializedVariable)
deriving DecidableEq, Repr

/-- `serializeContext`. -/
def serializeContext (c : Context) : SerializedContext :=
  ⟨some (c.vars.map Variable.toJSON)⟩

/-- `deserializeContext`. -/
def deserializeContext (d : SerializedContext) : Context :=
  ⟨(d.vars.getD []).map Variable.fromJSON⟩

/-! ## Cell model (`cell.model.ts`) -/

/-- Fields of an `EquationCell` (`type: 'equation'`). -/
structure EquationCell where
  id : String
  createdAt : Date
  updatedAt : Date
  latex : String
  context : Option Context
  solutions : Option (List String)
deriving DecidableEq, Repr

/-- The `Cell` tagged union: equation, folder (recursive) or note. -/
inductive Cell where
  | equation (e : EquationCell)
  | folder (id : String) (createdAt : Date) (updatedAt : Date)
      (name : String) (cells : List Cell)
  | note (id : String) (createdAt : Date) (updatedAt : Date) (content : String)

/-- `cell.id`, shared by all variants. -/
def Cell.id : Cell → String
  | .equation e => e.id
  | .folder i _ _ _ _ => i
  | .note i _ _ _ => i

/-- `cell.type === 'equation'`. -/
def Cell.isEquation : Cell → Bool
  | .equation _ => true
  | _ => false

/-- `SerializableCell`: dates as ISO strings, variant fields optional, and the
discriminant an unconstrained string (deserialization must reject unknown
values). -/
inductive SerializableCell where
  | mk (id : String) (type : String) (createdAt : ISOString) (updatedAt : ISOString)
      (latex : Option String) (name : Option String)
      (cells : Option (List SerializableCell)) (content : Option String)
      (context : Option SerializedContext) (solutions : Option (List String))

mutual

/-- `CellSerializer.serialize`: base fields plus the variant's own fields;
keys of other variants are absent (`none`).  `cell.context` is serialized when
present (`cell.context ? serializeContext(cell.context) : undefined`). -/
def CellSerializer.serialize : Cell → SerializableCell
  | .equation e =>
      .mk e.id "equation" e.createdAt.toISOString e.updatedAt.toISOString
        (some e.latex) none none none (e.context.map serializeContext) e.solutions
  | .folder i ca ua name cs =>
      .mk i "folder" ca.toISOString ua.toISOString
        none (some name) (some (CellSerializer.serializeList cs)) none none none
  | .note i ca ua content =>
      .mk i "note" ca.toISOString ua.toISOString
        none none none (some content) none none

/-- `cell.cells.map((c) => CellSerializer.serialize(c))`. -/
def CellSerializer.serializeList : List Cell → List SerializableCell
  | [] => []
  | c :: cs => CellSerializer.serialize c :: CellSerializer.serializeList cs

end

mutual

/-- `CellSerializer.deserialize`: switch on `data.type`; an unknown
discriminant throws (`Unknown cell type`), modelled as `Except.error`. -/
def CellSerializer.deserialize : SerializableCell → Except String Cell
  | .mk id ty ca ua latex name cells content context solutions =>
    if ty = "equation" then
      .ok (.equation ⟨id, newDate ca, newDate ua, latex.getD "",
        context.map deserializeContext, solutions⟩)
    else if ty = "folder" then
      match CellSerializer.deserializeOptList cells with
      | .ok cs => .ok (.folder id (newDate ca) (newDate ua) (name.getD "") cs)
      | .error e => .error e
    else if ty = "note" then
      .ok (.note id (newDate ca) (newDate ua) (content.getD ""))
    else
      .error ("Unknown cell type: " ++ ty)

/-- `(data.cells || [])`: an absent `cells` key maps over the empty list. -/
def CellSerializer.deserializeOptList :
    Option (List SerializableCell) → Except String (List Cell)
  | none => .ok []
  | some ss => CellSerializer.deserializeList ss

/-- `.map((c) => CellSerializer.deserialize(c))`: a `.map` whose callback
throws aborts at the first failing element. -/
def CellSerializer.deserializeList : List SerializableCell → Except String (List Cell)
  | [] => .ok []
  | s :: ss =>
    match CellSerializer.deserialize s with
    | .error e => .error e
    | .ok c =>
      match CellSerializer.deserializeList ss with
      | .error e => .error e
      | .ok cs => .ok (c :: cs)

end

/-! ## Function Executor interface (`python-executor.service.ts`, consumed by
`project.model.ts`) -/

/-- A registered `(functionName, metaFunctionName)` pair. -/
structure CellSolutionFunction where
  functionName : String
  metaFunctionName : String
deriving DecidableEq, Repr

/-- Result of a meta call (`meta-function-result.model.ts`). -/
structure MetaFunctionResult where
  index : Int
  name : String
  useResult : Bool
deriving DecidableEq, Repr

/-- Result of a main call (`cell-function-result.model.ts`): an optional new
context and optional display solutions. -/
structure CellFunctionResult where
  newContext : Option Context
  visibleSolutions : Option (List String)
deriving DecidableEq, Repr

/-- `CellFunctionInput` (`context.model.ts`): the cell and its preceding
context. -/
structure CellFunctionInput where
  cell : EquationCell
  context : Context
deriving DecidableEq, Repr

/-- `createCellFunctionInput`. -/
def createCellFunctionInput (cell : EquationCell) (context : Context) :
    CellFunctionInput :=
  ⟨cell, context⟩

/-- Outcome of an awaited executor call: the promise rejected (`threw`, a JS
exception), or it resolved to a `PythonExecutionResult` whose `result` field
is present or absent (the service puts an `error` string instead of a
`result` on internal failure; the callers only inspect `result`). -/
inductive ExecOutcome (α : Type) where
  | threw
  | returned (result : Option α)
deriving DecidableEq, Repr

/-- The Function Executor as seen by the propagation engine:
`getAvailableFunctions()` (registration order, stable) and the two calls.
The calls are modelled as pure: the engine awaits each call fully and the
embedding needs only the value each call settles to. -/
structure PythonExecutorService where
  availableFunctions : List CellSolutionFunction
  callMetaFunction : String → CellFunctionInput → ExecOutcome MetaFunctionResult
  callFunction : String → CellFunctionInput → ExecOutcome CellFunctionResult

/-- An element of `metaResults`: `{ result, functionName }`. -/
structure MetaEntry where
  result : MetaFunctionResult
  functionName : String
deriving DecidableEq, Repr

/-- The `for (const func of availableFunctions)` meta-call loop of
`updateCellContext`: a call that throws is logged and skipped; a resolved call
without a `result` contributes nothing; otherwise the pair is pushed. -/
def collectMetaResults (px : PythonExecutorService) (cell : EquationCell)
    (inputContext : Context) : List CellSolutionFunction → List MetaEntry
  | [] => []
  | func :: rest =>
    match px.callMetaFunction func.functionName
        (createCellFunctionInput cell inputContext) with
    | .threw => collectMetaResults px cell inputContext rest
    | .returned none => collectMetaResults px cell inputContext rest
    | .returned (some r) =>
        ⟨r, func.functionName⟩ :: collectMetaResults px cell inputContext rest

/-- Insertion step of the stable sort: a new element goes before the first
element it compares strictly below, and after every element it ties with. -/
def insertByIndex (x : MetaEntry) : List MetaEntry → List MetaEntry
  | [] => [x]
  | y :: ys =>
    if x.result.index ≤ y.result.index then x :: y :: ys
    else y :: insertByIndex x ys

/-- `usableResults.sort((a, b) => a.result.index - b.result.index)`:
`Array.prototype.sort` is stable (ES2019), and a stable sort under a total
preorder has a unique output, so any stable implementation models it; this is
stable insertion sort. -/
def jsStableSortByIndex : List MetaEntry → List MetaEntry
  | [] => []
  | x :: xs => insertByIndex x (jsStableSortByIndex xs)

/-- What `updateCellContext` produces: the mutated cell, the returned context,
and the trace of main calls issued to the executor (observable effect used to
state which candidate's main call ran). -/
structure UpdateCellResult where
  cell : EquationCell
  context : Context
  mainCalls : List String
deriving DecidableEq, Repr

/-- The main-call step of `updateCellContext` for the selected candidate:
the call's exception or a missing `result` falls through to returning the
input context with the cell untouched; otherwise the cell adopts the new
context (falling back to the input context), replaces its solutions only when
provided, and refreshes `updatedAt`. -/
def runSelectedFunction (px : PythonExecutorService) (now : Date)
    (cell : EquationCell) (inputContext : Context)
    (selectedFunction : MetaEntry) : UpdateCellResult :=
  match px.callFunction selectedFunction.functionName
      (createCellFunctionInput cell inputContext) with
  | .threw => ⟨cell, inputContext, [selectedFunction.functionName]⟩
  | .returned none => ⟨cell, inputContext, [selectedFunction.functionName]⟩
  | .returned (some cellResult) =>
    let step :=
      match cellResult.newContext with
      | some nc => ({ cell with context := some nc }, nc)
      | none => ({ cell with context := some inputContext }, inputContext)
    let cell2 :=
      match cellResult.visibleSolutions with
      | some vs => { step.1 with solutions := some vs }
      | none => step.1
    ⟨{ cell2 with updatedAt := now }, step.2, [selectedFunction.functionName]⟩

/-- `Project.updateCellContext` (function resolution for one equation cell).
`now` is the value of `new Date()` at the `cell.updatedAt` refresh. -/
def updateCellContext (px : PythonExecutorService) (now : Date)
    (cell : EquationCell) (inputContext : Context) : UpdateCellResult :=
  let availableFunctions := px.availableFunctions
  if availableFunctions.isEmpty then
    ⟨cell, inputContext, []⟩
  else
    let metaResults := collectMetaResults px cell inputContext availableFunctions
    if metaResults.isEmpty then
      ⟨cell, inputContext, []⟩
    else
      let usableResults := metaResults.filter (fun mr => mr.result.useResult)
      if usableResults.isEmpty then
        ⟨{ cell with context := some inputContext }, inputContext, []⟩
      else
        match jsStableSortByIndex usableResults with
        | [] => ⟨cell, inputContext, []⟩
        | selectedFunction :: _ =>
          runSelectedFunction px now cell inputContext selectedFunction

/-- `Project.getPreviousCellContext`: scan backward from `currentIndex - 1`
for the nearest equation cell with a (truthy, i.e. present) stored context;
empty context if none. -/
def getPreviousCellContext (cells : List Cell) (currentIndex : Nat) : Context :=
  match (cells.take currentIndex).reverse.findSome?
      (fun c => match c with | .equation e => e.context | _ => none) with
  | some ctx => ctx
  | none => createContext []

/-- The forward walk shared by `propagateContext` and
`propagateContextWithContext` (their loop bodies are identical): equation
cells are resolved and replace the running context with their output; a
folder's children are walked from index 0 seeded with the running context,
which the folder does not alter; note cells are skipped.  Returns the updated
cells and the final running context. -/
def propagateCells (px : PythonExecutorService) (now : Date) :
    List Cell → Context → List Cell × Context
  | [], ctx => ([], ctx)
  | .equation e :: rest, ctx =>
    let r := updateCellContext px now e ctx
    let step := propagateCells px now rest r.context
    (.equation r.cell :: step.1, step.2)
  | .folder i ca ua name fcells :: rest, ctx =>
    let inner := propagateCells px now fcells ctx
    let step := propagateCells px now rest ctx
    (.folder i ca ua name inner.1 :: step.1, step.2)
  | .note i ca ua content :: rest, ctx =>
    let step := propagateCells px now rest ctx
    (.note i ca ua content :: step.1, step.2)

/-- `Project.propagateContextWithContext(cells, startIndex, context)`. -/
def propagateContextWithContext (px : PythonExecutorService) (now : Date)
    (cells : List Cell) (startIndex : Nat) (context : Context) : List Cell :=
  cells.take startIndex ++ (propagateCells px now (cells.drop startIndex) context).1

/-- `Project.propagateContext(cells, startIndex)`: seed from
`getPreviousCellContext`, then the same forward walk. -/
def propagateContext (px : PythonExecutorService) (now : Date)
    (cells : List Cell) (startIndex : Nat) : List Cell :=
  propagateContextWithContext px now cells startIndex
    (getPreviousCellContext cells startIndex)

/-! ## Cell tree lookups (`project.model.ts`, `packet-handler.service.ts`) -/

mutual

/-- `Project.findCellRecursive`: first match in pre-order, descending into
every folder (the `if (cell.type === 'folder')` descent is split into
`findCellInCell` so the recursion is structural). -/
def findCellRecursive : List Cell → String → Option Cell
  | [], _ => none
  | c :: rest, cellId =>
    if c.id = cellId then some c
    else
      match findCellInCell c cellId with
      | some found => some found
      | none => findCellRecursive rest cellId

/-- Descend into a folder's children; other cell kinds yield nothing. -/
def findCellInCell : Cell → String → Option Cell
  | .folder _ _ _ _ fcells, cellId => findCellRecursive fcells cellId
  | _, _ => none

end

mutual

/-- `findCellWithParentArray` / `findCellWithParent`: the same pre-order
search, returning where the first match lives.  The containing array is
identified by the path of folder indices leading to it from the root (the
source instead returns the aliased array object and mutates it in place); the
second component is the index within that array. -/
def findCellPathAux : List Cell → String → Nat → Option (List Nat × Nat)
  | [], _, _ => none
  | c :: rest, cellId, i =>
    if c.id = cellId then some ([], i)
    else
      match findCellPathInCell c cellId with
      | some (p, j) => some (i :: p, j)
      | none => findCellPathAux rest cellId (i + 1)

/-- Descend into a folder's children (path relative to the folder). -/
def findCellPathInCell : Cell → String → Option (List Nat × Nat)
  | .folder _ _ _ _ fcells, cellId => findCellPathAux fcells cellId 0
  | _, _ => none

end

/-- Entry point of the path-returning search. -/
def findCellPath (cells : List Cell) (cellId : String) : Option (List Nat × Nat) :=
  findCellPathAux cells cellId 0

/-- Follow a path of folder indices down to the cell array it denotes. -/
def arrayAtPath : List Cell → List Nat → Option (List Cell)
  | cells, [] => some cells
  | cells, j :: p =>
    match cells[j]? with
    | some (.folder _ _ _ _ fcells) => arrayAtPath fcells p
    | _ => none

/-- Write a cell array back along a path of folder indices (the functional
rendering of the source's in-place mutation of the aliased parent array). -/
def replaceArrayAtPath : List Cell → List Nat → List Cell → List Cell
  | _, [], newArr => newArr
  | cells, j :: p, newArr =>
    match cells[j]? with
    | some (.folder i ca ua name fcells) =>
      cells.set j (.folder i ca ua name (replaceArrayAtPath fcells p newArr))
    | _ => cells

/-- `Array.prototype.splice`'s actual start index (ECMA-262): a negative
start counts from the end clamped at 0; a start beyond the length clamps to
the length. -/
def jsSpliceStart (start : Int) (len : Nat) : Nat :=
  if start < 0 then (len + start).toNat else min start.toNat len

/-- Insertion at a (already clamped) position. -/
def listInsertAt {α : Type} : List α → Nat → α → List α
  | arr, 0, c => c :: arr
  | [], _ + 1, c => [c]
  | a :: arr, n + 1, c => a :: listInsertAt arr n c

/-- `arr.splice(start, 0, c)`. -/
def spliceInsert (arr : List Cell) (start : Int) (c : Cell) : List Cell :=
  listInsertAt arr (jsSpliceStart start arr.length) c

/-! ## Packet handler (`packet-handler.service.ts`)

Each handler is embedded as a function from the project's cell tree and the
packet to an outcome: the new tree, the messages pushed on the error channel
(`errorSubject`), and the `updateContext` invocations issued by
`propagateContextFromIndex` (recorded, not executed — the source fires them
asynchronously with a `.catch`).  The refresh of `project.updatedAt` and the
per-type event subjects carry no tree information and are omitted. -/

/-- Outcome of applying one packet. -/
structure HandlerOutcome where
  cells : List Cell
  errors : List String
  propagations : List (String × Nat)

/-- The scan inside `propagateContextFromIndex`: first equation cell at or
after `startIndex`, with its id and absolute index. -/
def firstEquationFromAux : List Cell → Nat → Option (String × Nat)
  | [], _ => none
  | c :: rest, i =>
    if c.isEquation then some (c.id, i) else firstEquationFromAux rest (i + 1)

/-- `propagateContextFromIndex(cells, startIndex)` invokes
`updateContext(cells[i].id)` for the first equation cell `i ≥ startIndex`
(and nothing when there is none).  The invocation is recorded as
`(cellId, i)`; `Project.updateContext` then walks forward from that cell's
own position. -/
def propagateContextFromIndex (cells : List Cell) (startIndex : Nat) :
    List (String × Nat) :=
  match firstEquationFromAux (cells.drop startIndex) startIndex with
  | some inv => [inv]
  | none => []

/-- `CellMovePacket`. -/
structure CellMovePacket where
  timestamp : ISOString
  cellId : String
  fromIndex : Int
  toIndex : Int
deriving DecidableEq, Repr

/-- `handleCellMove`: locate the cell (not-found is surfaced); a `fromIndex`
mismatch only logs a warning and the actual index is used; an out-of-bounds
`toIndex` is rejected with no mutation; otherwise splice-remove then
splice-insert, and re-propagate from `min(currentIndex, toIndex)` only for an
equation cell. -/
def handleCellMove (cells : List Cell) (packet : CellMovePacket) : HandlerOutcome :=
  match findCellPath cells packet.cellId with
  | none => ⟨cells, ["Cell not found: " ++ packet.cellId], []⟩
  | some (p, currentIndex) =>
    let parentArray := (arrayAtPath cells p).getD []
    if packet.toIndex < 0 ∨ (parentArray.length : Int) ≤ packet.toIndex then
      ⟨cells, ["Invalid toIndex"], []⟩
    else
      match parentArray[currentIndex]? with
      | none => ⟨cells, [], []⟩
      | some cell =>
        let removed := parentArray.eraseIdx currentIndex
        let inserted := spliceInsert removed packet.toIndex cell
        let newCells := replaceArrayAtPath cells p inserted
        let updateFromIndex := min currentIndex packet.toIndex.toNat
        let props :=
          if cell.isEquation then propagateContextFromIndex inserted updateFromIndex
          else []
        ⟨newCells, [], props⟩

/-- `CellUpdatePacket`. -/
structure CellUpdatePacket where
  timestamp : ISOString
  cellId : String
  cell : SerializableCell

/-- `handleCellUpdate`: locate the cell, deserialize the replacement (a
decode throw is caught and surfaced), splice it into the same slot.  No
propagation is triggered. -/
def handleCellUpdate (cells : List Cell) (packet : CellUpdatePacket) : HandlerOutcome :=
  match findCellPath cells packet.cellId with
  | none => ⟨cells, ["Cell not found: " ++ packet.cellId], []⟩
  | some (p, currentIndex) =>
    match CellSerializer.deserialize packet.cell with
    | .error e => ⟨cells, ["Failed to update cell: " ++ e], []⟩
    | .ok updatedCell =>
      let parentArray := (arrayAtPath cells p).getD []
      ⟨replaceArrayAtPath cells p (parentArray.set currentIndex updatedCell), [], []⟩

/-- `CellCreatePacket`. -/
structure CellCreatePacket where
  timestamp : ISOString
  cell : SerializableCell
  parentCellId : Option String
  index : Int

/-- Target-array resolution of `handleCellCreate`: the root array when no
`parentCellId` is given, else the children of the first pre-order match,
which must be a folder (`Project.findCell` finds the same cell as the
path-returning search). -/
def resolveCreateTarget (cells : List Cell) (parentCellId : Option String) :
    Option (List Nat × List Cell) :=
  match parentCellId with
  | none => some ([], cells)
  | some pid =>
    match findCellPath cells pid with
    | none => none
    | some (p, i) =>
      match (arrayAtPath cells p).bind (fun arr => arr[i]?) with
      | some (.folder _ _ _ _ fcells) => some (p ++ [i], fcells)
      | _ => none

/-- `handleCellCreate`: deserialize the new cell (a decode throw is caught
and surfaced), resolve the target array (an unknown or non-folder parent is
surfaced), then `parentArray.splice(packet.index, 0, newCell)` — the index is
clamped by splice, never validated.  No propagation is triggered. -/
def handleCellCreate (cells : List Cell) (packet : CellCreatePacket) : HandlerOutcome :=
  match CellSerializer.deserialize packet.cell with
  | .error e => ⟨cells, ["Failed to create cell: " ++ e], []⟩
  | .ok newCell =>
    match resolveCreateTarget cells packet.parentCellId with
    | none => ⟨cells, ["Parent folder not found: " ++ packet.parentCellId.getD ""], []⟩
    | some (ap, parentArray) =>
      ⟨replaceArrayAtPath cells ap (spliceInsert parentArray packet.index newCell), [], []⟩

/-- `CellDeletePacket` (`parentCellId` is carried but the handler locates the
cell globally). -/
structure CellDeletePacket where
  timestamp : ISOString
  cellId : String
  parentCellId : Option String
deriving DecidableEq, Repr

/-- `handleCellDelete`: locate the cell and splice it out.  No propagation is
triggered. -/
def handleCellDelete (cells : List Cell) (packet : CellDeletePacket) : HandlerOutcome :=
  match findCellPath cells packet.cellId with
  | none => ⟨cells, ["Cell not found: " ++ packet.cellId], []⟩
  | some (p, currentIndex) =>
    let parentArray := (arrayAtPath cells p).getD []
    ⟨replaceArrayAtPath cells p (parentArray.eraseIdx currentIndex), [], []⟩

/-! ## Echo-suppression cache (application component) -/

/-- The JSON string `serializeCellState` builds, represented by its
information content: the discriminant plus the compared user-visible fields.
(`JSON.stringify` of these fixed-shape literals is injective in those fields;
the `dropdownSelections` key reads `undefined` on this cell model and is
dropped by `stringify`.) -/
inductive CellStateFingerprint where
  | equationState (latex : String)
  | noteState (content : String)
  | folderState (name : String)
deriving DecidableEq, Repr

/-- `serializeCellState`: the cheap structural fingerprint — computed
context and solutions are excluded. -/
def serializeCellState : Cell → CellStateFingerprint
  | .equation e => .equationState e.latex
  | .note _ _ _ content => .noteState content
  | .folder _ _ _ name _ => .folderState name

/-- The `cellStates` map (cell id → cached fingerprint), as its lookup
function. -/
def CellStatesMap : Type := String → Option CellStateFingerprint

/-- `this.cellStates.set(cell.id, state)`. -/
def cellStatesSet (m : CellStatesMap) (k : String) (v : CellStateFingerprint) :
    CellStatesMap :=
  fun k' => if k' = k then some v else m k'

/-- `hasCellChanged`: compare the current fingerprint against the cache
(`Map.get` of a missing key is `undefined`, which differs from every
string). -/
def hasCellChanged (cellStates : CellStatesMap) (cell : Cell) : Bool :=
  match cellStates cell.id with
  | some cached => decide ¬(cached = serializeCellState cell)
  | none => true

/-- Cache effect of the `cellUpdate$` subscription: after the handler applied
an inbound `CellUpdate`, the subscriber finds the (freshly replaced) cell and
refreshes its cached fingerprint; a missing cell leaves the cache alone. -/
def onInboundCellUpdate (projectCells : List Cell) (cellStates : CellStatesMap)
    (cellId : String) : CellStatesMap :=
  match findCellRecursive projectCells cellId with
  | some cell => cellStatesSet cellStates cell.id (serializeCellState cell)
  | none => cellStates

/-- Whether `onCellUpdated(cellId)` emits an outbound `CellUpdate` packet:
it returns early when the executor is not ready or the cell is absent;
otherwise `hasCellChanged` is evaluated against the cache *before*
propagation runs, and the packet is sent only if it is `true`, the socket is
connected, and no inbound packet is being applied.  (Propagation itself
cannot fail here: the cell was just located, so `updateContext` does not
throw.) -/
def onCellUpdatedSends (projectCells : List Cell) (cellStates : CellStatesMap)
    (cellId : String) (executorReady connected processingIncoming : Bool) : Bool :=
  if !executorReady then false
  else
    match findCellRecursive projectCells cellId with
    | none => false
    | some cell =>
      hasCellChanged cellStates cell && connected && !processingIncoming

/-! ## Packets and the JSON wire form (`packet.model.ts`)

`PacketFactory.serialize` is `JSON.stringify(packet)` and
`PacketFactory.deserialize` is `JSON.parse(json) as Packet`.  The embedding
works at the level of JSON *values* (the text rendering and parsing of a
JSON document are mutually inverse on values, a property of the runtime, not
of this repository): `stringify` maps the packet object to a `Json` value
with `undefined` fields dropped, and the cast is the typed field-by-field
reading of the parsed value. -/

/-- `SerializableProject` (`project.model.ts`): dates as ISO strings. -/
structure SerializableProject where
  id : String
  name : String
  cells : List SerializableCell
  createdAt : ISOString
  updatedAt : ISOString

/-- `ProjectSyncPacket`. -/
structure ProjectSyncPacket where
  timestamp : ISOString
  project : SerializableProject

/-- The `Packet` tagged union. -/
inductive Packet where
  | projectSync (p : ProjectSyncPacket)
  | cellUpdate (p : CellUpdatePacket)
  | cellMove (p : CellMovePacket)
  | cellCreate (p : CellCreatePacket)
  | cellDelete (p : CellDeletePacket)

/-- JSON values.  `jdate` is a JSON string holding the ISO-8601 rendering of
an instant (kept abstract, see `ISOString`).  `jundefined` is the value of an
absent or `undefined` object field: `JSON.stringify` drops its key and a
property read yields `undefined`, so the two are indistinguishable here. -/
inductive Json where
  | jstr (s : String)
  | jnum (n : Int)
  | jbool (b : Bool)
  | jdate (t : ISOString)
  | jundefined
  | jarr (elems : List Json)
  | jobj (fields : List (String × Json))

/-- An optional value as an object-field value. -/
def Json.opt (o : Option Json) : Json := o.getD .jundefined

/-- Whether a value is the `undefined` marker. -/
def Json.isUndef : Json → Bool
  | .jundefined => true
  | _ => false

/-- A present field value, or `none` for an `undefined` one. -/
def Json.fieldFilter (v : Json) : Option Json :=
  if v.isUndef then none else some v

/-- Property read `obj[key]`: `undefined` for a non-object, a missing key, or
an `undefined` field. -/
def Json.getField (j : Json) (key : String) : Option Json :=
  match j with
  | .jobj fields =>
    match fields.lookup key with
    | some v => v.fieldFilter
    | none => none
  | _ => none

/-- Typed read of a JSON string. -/
def Json.asString : Json → Option String
  | .jstr s => some s
  | _ => none

/-- Typed read of a JSON number (an integral index). -/
def Json.asInt : Json → Option Int
  | .jnum n => some n
  | _ => none

/-- Typed read of an ISO-date string. -/
def Json.asInstant : Json → Option ISOString
  | .jdate t => some t
  | _ => none

/-- Typed read of a JSON array. -/
def Json.asArr : Json → Option (List Json)
  | .jarr xs => some xs
  | _ => none

/-- The `'numerical' | 'analytical'` tag on the wire. -/
def variableTypeToString : VariableType → String
  | .numerical => "numerical"
  | .analytical => "analytical"

/-- Reading the tag back. -/
def variableTypeOfString (s : String) : Option VariableType :=
  if s = "numerical" then some .numerical
  else if s = "analytical" then some .analytical
  else none

/-- Typed reading of an array of JSON strings. -/
def stringListOfJson : List Json → Option (List String)
  | [] => some []
  | x :: xs => do
    let s ← Json.asString x
    let ss ← stringListOfJson xs
    pure (s :: ss)

/-- `stringify` of a serialized variable `{name, type, values}`. -/
def serializedVariableToJson (v : SerializedVariable) : Json :=
  .jobj [("name", .jstr v.name), ("type", .jstr (variableTypeToString v.type)),
    ("values", .jarr (v.values.map Json.jstr))]

/-- Typed reading of a serialized variable. -/
def serializedVariableOfJson (j : Json) : Option SerializedVariable := do
  let name ← (Json.getField j "name").bind Json.asString
  let tys ← (Json.getField j "type").bind Json.asString
  let ty ← variableTypeOfString tys
  let valuesJ ← (Json.getField j "values").bind Json.asArr
  let values ← stringListOfJson valuesJ
  pure ⟨name, ty, values⟩

/-- Typed reading of an array of serialized variables. -/
def serializedVariableListOfJson : List Json → Option (List SerializedVariable)
  | [] => some []
  | x :: xs => do
    let v ← serializedVariableOfJson x
    let vs ← serializedVariableListOfJson xs
    pure (v :: vs)

/-- `stringify` of a serialized context `{variables}`. -/
def serializedContextToJson (c : SerializedContext) : Json :=
  .jobj [("variables",
    Json.opt (c.vars.map (fun vs => Json.jarr (vs.map serializedVariableToJson))))]

/-- Typed reading of a serialized context. -/
def serializedContextOfJson (j : Json) : Option SerializedContext :=
  match j with
  | .jobj _ =>
    match Json.getField j "variables" with
    | none => some ⟨none⟩
    | some (.jarr xs) => (serializedVariableListOfJson xs).map (fun vs => ⟨some vs⟩)
    | some _ => none
  | _ => none

mutual

/-- `stringify` of a `SerializableCell`: the object's own keys, with
`undefined`-valued ones dropped (`Json.opt`). -/
def serializableCellToJson : SerializableCell → Json
  | .mk id ty ca ua latex name cells content context solutions =>
    .jobj [("id", .jstr id), ("type", .jstr ty), ("createdAt", .jdate ca),
      ("updatedAt", .jdate ua),
      ("latex", Json.opt (latex.map Json.jstr)),
      ("name", Json.opt (name.map Json.jstr)),
      ("cells", serializableCellsFieldToJson cells),
      ("content", Json.opt (content.map Json.jstr)),
      ("context", Json.opt (context.map serializedContextToJson)),
      ("solutions", Json.opt (solutions.map (fun ss => Json.jarr (ss.map Json.jstr))))]

/-- `stringify` of the optional nested-cells field. -/
def serializableCellsFieldToJson : Option (List SerializableCell) → Json
  | none => .jundefined
  | some cs => .jarr (serializableCellListToJson cs)

/-- `stringify` of a list of serialized cells. -/
def serializableCellListToJson : List SerializableCell → List Json
  | [] => []
  | c :: cs => serializableCellToJson c :: serializableCellListToJson cs

end

/-- A looked-up field is smaller than the field list holding it. -/
theorem sizeOf_lookup_lt {fields : List (String × Json)} {key : String} {v : Json}
    (h : fields.lookup key = some v) : sizeOf v < sizeOf fields := by
  induction fields with
  | nil => simp [List.lookup] at h
  | cons kv rest ih =>
    obtain ⟨k', v'⟩ := kv
    by_cases hk : key == k'
    · simp [List.lookup, hk] at h
      subst h
      simp
      omega
    · simp [List.lookup, hk] at h
      have := ih h
      simp
      omega

/-- A field value is smaller than the object it is read from. -/
theorem sizeOf_getField_lt {j : Json} {key : String} {v : Json}
    (h : Json.getField j key = some v) : sizeOf v < sizeOf j := by
  cases j with
  | jobj fields =>
    have hj : sizeOf fields < sizeOf (Json.jobj fields) := by simp
    simp only [Json.getField] at h
    cases hl : fields.lookup key with
    | none => rw [hl] at h; simp at h
    | some w =>
      rw [hl] at h
      have hw := sizeOf_lookup_lt hl
      cases w
      case jstr s => simp [Json.fieldFilter, Json.isUndef] at h; subst h; omega
      case jnum n => simp [Json.fieldFilter, Json.isUndef] at h; subst h; omega
      case jbool b => simp [Json.fieldFilter, Json.isUndef] at h; subst h; omega
      case jdate t => simp [Json.fieldFilter, Json.isUndef] at h; subst h; omega
      case jundefined => simp [Json.fieldFilter, Json.isUndef] at h
      case jarr xs => simp [Json.fieldFilter, Json.isUndef] at h; subst h; omega
      case jobj fs => simp [Json.fieldFilter, Json.isUndef] at h; subst h; omega
  | jstr s => simp [Json.getField] at h
  | jnum n => simp [Json.getField] at h
  | jbool b => simp [Json.getField] at h
  | jdate t => simp [Json.getField] at h
  | jundefined => simp [Json.getField] at h
  | jarr xs => simp [Json.getField] at h

/-- Optional-string field read (`undefined` stays `undefined`, a present
value must be a string). -/
def getOptStrField (j : Json) (key : String) : Option (Option String) :=
  match Json.getField j key with
  | none => some none
  | some v => (Json.asString v).map some

/-- Optional string-array field read. -/
def getOptStrListField (j : Json) (key : String) : Option (Option (List String)) :=
  match Json.getField j key with
  | none => some none
  | some (.jarr xs) => (stringListOfJson xs).map some
  | some _ => none

mutual

/-- The typed reading of a parsed `SerializableCell` (the `as` cast applied
to `JSON.parse` output). -/
def serializableCellOfJson : Json → Option SerializableCell
  | .jobj fields => do
    let cells ←
      match hc : Json.getField (.jobj fields) "cells" with
      | none => some none
      | some (.jarr xs) => (serializableCellListOfJson xs).map some
      | some _ => none
    let id ← (Json.getField (.jobj fields) "id").bind Json.asString
    let ty ← (Json.getField (.jobj fields) "type").bind Json.asString
    let ca ← (Json.getField (.jobj fields) "createdAt").bind Json.asInstant
    let ua ← (Json.getField (.jobj fields) "updatedAt").bind Json.asInstant
    let latex ← getOptStrField (.jobj fields) "latex"
    let name ← getOptStrField (.jobj fields) "name"
    let content ← getOptStrField (.jobj fields) "content"
    let context ←
      match Json.getField (.jobj fields) "context" with
      | none => some none
      | some v => (serializedContextOfJson v).map some
    let solutions ← getOptStrListField (.jobj fields) "solutions"
    pure (.mk id ty ca ua latex name cells content context solutions)
  | _ => none
termination_by j => sizeOf j
decreasing_by
  have h1 := sizeOf_getField_lt hc
  simp at h1 ⊢
  omega

/-- Typed reading of a list of serialized cells. -/
def serializableCellListOfJson : List Json → Option (List SerializableCell)
  | [] => some []
  | x :: xs => do
    let c ← serializableCellOfJson x
    let cs ← serializableCellListOfJson xs
    pure (c :: cs)
termination_by l => sizeOf l
decreasing_by
  all_goals simp
  all_goals omega

end

/-- `stringify` of a `SerializableProject`. -/
def serializableProjectToJson (p : SerializableProject) : Json :=
  .jobj [("id", .jstr p.id), ("name", .jstr p.name),
    ("cells", .jarr (serializableCellListToJson p.cells)),
    ("createdAt", .jdate p.createdAt), ("updatedAt", .jdate p.updatedAt)]

/-- Typed reading of a parsed `SerializableProject`. -/
def serializableProjectOfJson (j : Json) : Option SerializableProject := do
  let id ← (Json.getField j "id").bind Json.asString
  let name ← (Json.getField j "name").bind Json.asString
  let cellsJ ← (Json.getField j "cells").bind Json.asArr
  let cells ← serializableCellListOfJson cellsJ
  let ca ← (Json.getField j "createdAt").bind Json.asInstant
  let ua ← (Json.getField j "updatedAt").bind Json.asInstant
  pure ⟨id, name, cells, ca, ua⟩

/-- `PacketFactory.serialize`, i.e. `JSON.stringify(packet)`, at the
JSON-value level: each packet interface's keys, `undefined` ones dropped. -/
def packetToJson : Packet → Json
  | .projectSync p => .jobj [("type", .jstr "ProjectSync"),
      ("timestamp", .jdate p.timestamp),
      ("project", serializableProjectToJson p.project)]
  | .cellUpdate p => .jobj [("type", .jstr "CellUpdate"),
      ("timestamp", .jdate p.timestamp),
      ("cellId", .jstr p.cellId), ("cell", serializableCellToJson p.cell)]
  | .cellMove p => .jobj [("type", .jstr "CellMove"),
      ("timestamp", .jdate p.timestamp),
      ("cellId", .jstr p.cellId), ("fromIndex", .jnum p.fromIndex),
      ("toIndex", .jnum p.toIndex)]
  | .cellCreate p => .jobj [("type", .jstr "CellCreate"),
      ("timestamp", .jdate p.timestamp),
      ("cell", serializableCellToJson p.cell), ("index", .jnum p.index),
      ("parentCellId", Json.opt (p.parentCellId.map Json.jstr))]
  | .cellDelete p => .jobj [("type", .jstr "CellDelete"),
      ("timestamp", .jdate p.timestamp),
      ("cellId", .jstr p.cellId),
      ("parentCellId", Json.opt (p.parentCellId.map Json.jstr))]

/-- `PacketFactory.deserialize`, i.e. `JSON.parse(json) as Packet`: the typed
field-by-field reading of the parsed value, dispatching on `type`. -/
def packetOfJson (j : Json) : Option Packet :=
  match (Json.getField j "type").bind Json.asString with
  | some "ProjectSync" => do
    let ts ← (Json.getField j "timestamp").bind Json.asInstant
    let pj ← Json.getField j "project"
    let project ← serializableProjectOfJson pj
    pure (.projectSync ⟨ts, project⟩)
  | some "CellUpdate" => do
    let ts ← (Json.getField j "timestamp").bind Json.asInstant
    let cid ← (Json.getField j "cellId").bind Json.asString
    let cj ← Json.getField j "cell"
    let cell ← serializableCellOfJson cj
    pure (.cellUpdate ⟨ts, cid, cell⟩)
  | some "CellMove" => do
    let ts ← (Json.getField j "timestamp").bind Json.asInstant
    let cid ← (Json.getField j "cellId").bind Json.asString
    let fi ← (Json.getField j "fromIndex").bind Json.asInt
    let ti ← (Json.getField j "toIndex").bind Json.asInt
    pure (.cellMove ⟨ts, cid, fi, ti⟩)
  | some "CellCreate" => do
    let ts ← (Json.getField j "timestamp").bind Json.asInstant
    let cj ← Json.getField j "cell"
    let cell ← serializableCellOfJson cj
    let idx ← (Json.getField j "index").bind Json.asInt
    let pcid ← getOptStrField j "parentCellId"
    pure (.cellCreate ⟨ts, cell, pcid, idx⟩)
  | some "CellDelete" => do
    let ts ← (Json.getField j "timestamp").bind Json.asInstant
    let cid ← (Json.getField j "cellId").bind Json.asString
    let pcid ← getOptStrField j "parentCellId"
    pure (.cellDelete ⟨ts, cid, pcid⟩)
  | _ => none

/-- `PacketFactory.serialize` (at the JSON-value level, see above). -/
def PacketFactory.serialize : Packet → Json := packetToJson

/-- `PacketFactory.deserialize` (at the JSON-value level, see above). -/
def PacketFactory.deserialize : Json → Option Packet := packetOfJson

/-! ## Decidable equality for `Cell`

(Nested inductive, so the instance is written by hand; needed only so that
concrete evaluations in the theorems below can go through `decide`.) -/

mutual

def Cell.decEq : (a b : Cell) → Decidable (a = b)
  | .equation e1, .equation e2 =>
    if h : e1 = e2 then .isTrue (by rw [h])
    else .isFalse (fun hh => h (Cell.equation.inj hh))
  | .folder i1 c1 u1 n1 cs1, .folder i2 c2 u2 n2 cs2 =>
    if h1 : i1 = i2 then
      if h2 : c1 = c2 then
        if h3 : u1 = u2 then
          if h4 : n1 = n2 then
            match Cell.decEqList cs1 cs2 with
            | .isTrue h5 => .isTrue (by rw [h1, h2, h3, h4, h5])
            | .isFalse h5 => .isFalse (fun hh => h5 (Cell.folder.inj hh).2.2.2.2)
          else .isFalse (fun hh => h4 (Cell.folder.inj hh).2.2.2.1)
        else .isFalse (fun hh => h3 (Cell.folder.inj hh).2.2.1)
      else .isFalse (fun hh => h2 (Cell.folder.inj hh).2.1)
    else .isFalse (fun hh => h1 (Cell.folder.inj hh).1)
  | .note i1 c1 u1 t1, .note i2 c2 u2 t2 =>
    if h1 : i1 = i2 then
      if h2 : c1 = c2 then
        if h3 : u1 = u2 then
          if h4 : t1 = t2 then .isTrue (by rw [h1, h2, h3, h4])
          else .isFalse (fun hh => h4 (Cell.note.inj hh).2.2.2)
        else .isFalse (fun hh => h3 (Cell.note.inj hh).2.2.1)
      else .isFalse (fun hh => h2 (Cell.note.inj hh).2.1)
    else .isFalse (fun hh => h1 (Cell.note.inj hh).1)
  | .equation _, .folder _ _ _ _ _ => .isFalse nofun
  | .equation _, .note _ _ _ _ => .isFalse nofun
  | .folder _ _ _ _ _, .equation _ => .isFalse nofun
  | .folder _ _ _ _ _, .note _ _ _ _ => .isFalse nofun
  | .note _ _ _ _, .equation _ => .isFalse nofun
  | .note _ _ _ _, .folder _ _ _ _ _ => .isFalse nofun

def Cell.decEqList : (as bs : List Cell) → Decidable (as = bs)
  | [], [] => .isTrue rfl
  | [], _ :: _ => .isFalse nofun
  | _ :: _, [] => .isFalse nofun
  | a :: as, b :: bs =>
    match Cell.decEq a b, Cell.decEqList as bs with
    | .isTrue h1, .isTrue h2 => .isTrue (by rw [h1, h2])
    | .isFalse h1, _ => .isFalse (fun hh => h1 (List.cons.inj hh).1)
    | _, .isFalse h2 => .isFalse (fun hh => h2 (List.cons.inj hh).2)

end

instance : DecidableEq Cell := Cell.decEq

/-! ## Auxiliary notions used to state the claims -/

/-- The lowest priority index among candidates (well-defined for the
nonempty lists it is used on). -/
def lowestIndex : List MetaEntry → Int
  | [] => 0
  | [x] => x.result.index
  | x :: y :: ys => min x.result.index (lowestIndex (y :: ys))

/-! ## Concrete fixtures used by witnesses and counterexamples -/

/-- An equation cell with the given id and no stored context. -/
def eqCell (i : String) : Cell :=
  .equation ⟨i, ⟨0⟩, ⟨0⟩, "", none, none⟩

/-- A context holding one variable `x`. -/
def ctxX : Context := ⟨[⟨"x", .numerical, ["1"]⟩]⟩

/-- An equation cell that already stores the context `ctxX`. -/
def cellWithCtxX : EquationCell := ⟨"c1", ⟨0⟩, ⟨0⟩, "y=2", some ctxX, none⟩

/-- Executor with one registered function whose meta call resolves without a
`result` (the service's internal-error path). -/
def pxNoResult : PythonExecutorService where
  availableFunctions := [⟨"solve", "solve_meta"⟩]
  callMetaFunction := fun _ _ => .returned none
  callFunction := fun _ _ => .returned none

/-- Executor with one registered function whose meta call answers
`useResult = false`. -/
def pxAllUnusable : PythonExecutorService where
  availableFunctions := [⟨"solve", "solve_meta"⟩]
  callMetaFunction := fun _ _ => .returned (some ⟨0, "solve", false⟩)
  callFunction := fun _ _ => .returned none

/-- Executor with one usable candidate whose main call throws. -/
def pxMainThrows : PythonExecutorService where
  availableFunctions := [⟨"solve", "solve_meta"⟩]
  callMetaFunction := fun _ _ => .returned (some ⟨0, "solve", true⟩)
  callFunction := fun _ _ => .threw

/-- Executor with four registered functions whose meta calls answer usable
results at priority indices `[5, 2, 2, 9]` in registration order. -/
def pxPriorities : PythonExecutorService where
  availableFunctions := [⟨"f5", "m5"⟩, ⟨"f2a", "m2a"⟩, ⟨"f2b", "m2b"⟩, ⟨"f9", "m9"⟩]
  callMetaFunction := fun n _ =>
    if n = "f5" then .returned (some ⟨5, "f5", true⟩)
    else if n = "f2a" then .returned (some ⟨2, "f2a", true⟩)
    else if n = "f2b" then .returned (some ⟨2, "f2b", true⟩)
    else if n = "f9" then .returned (some ⟨9, "f9", true⟩)
    else .threw
  callFunction := fun _ _ => .returned none

/-- `[Eq "A", Folder "F" [Eq "C"], Eq "B"]`: a top-level array with a folder
between two equations. -/
def exampleCells : List Cell :=
  [eqCell "A", .folder "F" ⟨0⟩ ⟨0⟩ "f" [eqCell "C"], eqCell "B"]

/-- Move `"A"` from index 0 to index 2 in `exampleCells`. -/
def exampleMove : CellMovePacket := ⟨⟨0⟩, "A", 0, 2⟩

/-- Move `"A"` to the out-of-bounds index 5. -/
def exampleMoveOob : CellMovePacket := ⟨⟨0⟩, "A", 0, 5⟩

/-- A serialized note cell. -/
def exampleNoteWire : SerializableCell :=
  .mk "N" "note" ⟨0⟩ ⟨0⟩ none none none (some "hi") none none

/-- Create the serialized note at the far out-of-bounds index 99 at the root. -/
def exampleCreate : CellCreatePacket := ⟨⟨0⟩, exampleNoteWire, none, 99⟩

/-- A `CellUpdate` packet replacing `"A"` by a serialized copy of itself. -/
def exampleUpdate : CellUpdatePacket :=
  ⟨⟨0⟩, "A", CellSerializer.serialize (eqCell "A")⟩

/-! ### Serializer round trip -/

theorem variable_toJSON_fromJSON (v : Variable) :
    Variable.fromJSON (Variable.toJSON v) = v := rfl

theorem context_serialize_roundtrip (c : Context) :
    deserializeContext (serializeContext c) = c := by
  cases c with
  | mk vs =>
    simp [serializeContext, deserializeContext, List.map_map, Function.comp_def,
      variable_toJSON_fromJSON]

mutual

theorem cell_serialize_roundtrip (c : Cell) :
    CellSerializer.deserialize (CellSerializer.serialize c) = .ok c := by
  cases c with
  | equation e =>
    obtain ⟨i, ⟨cam⟩, ⟨uam⟩, lx, octx, sol⟩ := e
    cases octx with
    | none =>
      simp [CellSerializer.serialize, CellSerializer.deserialize, newDate,
        Date.toISOString]
    | some ctx =>
      simp [CellSerializer.serialize, CellSerializer.deserialize, newDate,
        Date.toISOString, context_serialize_roundtrip]
  | folder i ca ua name cs =>
    simp [CellSerializer.serialize, CellSerializer.deserialize,
      CellSerializer.deserializeOptList, newDate, Date.toISOString,
      cellList_serialize_roundtrip cs]
  | note i ca ua content =>
    simp [CellSerializer.serialize, CellSerializer.deserialize, newDate,
      Date.toISOString]

theorem cellList_serialize_roundtrip (cs : List Cell) :
    CellSerializer.deserializeList (CellSerializer.serializeList cs) = .ok cs := by
  cases cs with
  | nil => simp [CellSerializer.serializeList, CellSerializer.deserializeList]
  | cons c cs =>
    simp [CellSerializer.serializeList, CellSerializer.deserializeList,
      cell_serialize_roundtrip c, cellList_serialize_roundtrip cs]

end


/-! ### Wire-level round trips -/

theorem variableType_string_roundtrip (t : VariableType) :
    variableTypeOfString (variableTypeToString t) = some t := by
  cases t <;> simp [variableTypeToString, variableTypeOfString]

theorem fieldFilter_jstr (s : String) :
    (Json.jstr s).fieldFilter = some (.jstr s) := rfl

theorem fieldFilter_jnum (n : Int) :
    (Json.jnum n).fieldFilter = some (.jnum n) := rfl

theorem fieldFilter_jdate (t : ISOString) :
    (Json.jdate t).fieldFilter = some (.jdate t) := rfl

theorem fieldFilter_jarr (xs : List Json) :
    (Json.jarr xs).fieldFilter = some (.jarr xs) := rfl

theorem fieldFilter_jundefined : Json.jundefined.fieldFilter = none := rfl

theorem fieldFilter_serializedContextToJson (c : SerializedContext) :
    (serializedContextToJson c).fieldFilter = some (serializedContextToJson c) := rfl

theorem fieldFilter_serializableCellToJson (sc : SerializableCell) :
    (serializableCellToJson sc).fieldFilter = some (serializableCellToJson sc) := by
  cases sc with
  | mk id ty ca ua latex name cells content context solutions => rfl

theorem fieldFilter_serializableProjectToJson (p : SerializableProject) :
    (serializableProjectToJson p).fieldFilter = some (serializableProjectToJson p) := rfl

theorem stringList_json_roundtrip (ss : List String) :
    stringListOfJson (ss.map Json.jstr) = some ss := by
  induction ss with
  | nil => rfl
  | cons s ss ih => simp [stringListOfJson, Json.asString, ih]

theorem serializedVariable_json_roundtrip (v : SerializedVariable) :
    serializedVariableOfJson (serializedVariableToJson v) = some v := by
  obtain ⟨name, ty, values⟩ := v
  simp [serializedVariableToJson, serializedVariableOfJson, Json.getField,
    fieldFilter_jstr, fieldFilter_jnum, fieldFilter_jdate, fieldFilter_jarr,
    fieldFilter_jundefined, List.lookup, Json.asString, Json.asArr,
    variableType_string_roundtrip, stringList_json_roundtrip]

theorem serializedVariableList_json_roundtrip (vs : List SerializedVariable) :
    serializedVariableListOfJson (vs.map serializedVariableToJson) = some vs := by
  induction vs with
  | nil => rfl
  | cons v vs ih =>
    simp [serializedVariableListOfJson, serializedVariable_json_roundtrip, ih]

theorem serializedContext_json_roundtrip (c : SerializedContext) :
    serializedContextOfJson (serializedContextToJson c) = some c := by
  obtain ⟨vs⟩ := c
  cases vs with
  | none =>
    simp [serializedContextToJson, serializedContextOfJson, Json.getField,
      fieldFilter_jstr, fieldFilter_jnum, fieldFilter_jdate, fieldFilter_jarr,
    fieldFilter_jundefined, List.lookup, Json.opt]
  | some vs =>
    simp [serializedContextToJson, serializedContextOfJson, Json.getField,
      fieldFilter_jstr, fieldFilter_jnum, fieldFilter_jdate, fieldFilter_jarr,
    fieldFilter_jundefined, List.lookup, Json.opt, serializedVariableList_json_roundtrip]

mutual

theorem serializableCell_json_roundtrip (sc : SerializableCell) :
    serializableCellOfJson (serializableCellToJson sc) = some sc := by
  obtain ⟨id, ty, ca, ua, latex, name, cells, content, context, solutions⟩ := sc
  cases cells with
  | none =>
    cases latex <;> cases name <;> cases content <;> cases context <;>
      cases solutions <;>
      simp [serializableCellToJson, serializableCellOfJson,
        serializableCellsFieldToJson, Json.getField, fieldFilter_jstr, fieldFilter_jnum, fieldFilter_jdate, fieldFilter_jarr,
    fieldFilter_jundefined,
        fieldFilter_serializedContextToJson, List.lookup, Json.opt,
        getOptStrField, getOptStrListField, Json.asString, Json.asInstant,
        stringList_json_roundtrip, serializedContext_json_roundtrip]
  | some cs =>
    have hrec := serializableCellList_json_roundtrip cs
    cases latex <;> cases name <;> cases content <;> cases context <;>
      cases solutions <;>
      simp [serializableCellToJson, serializableCellOfJson,
        serializableCellsFieldToJson, Json.getField, fieldFilter_jstr, fieldFilter_jnum, fieldFilter_jdate, fieldFilter_jarr,
    fieldFilter_jundefined,
        fieldFilter_serializedContextToJson, List.lookup, Json.opt,
        getOptStrField, getOptStrListField, Json.asString, Json.asInstant,
        stringList_json_roundtrip, serializedContext_json_roundtrip, hrec]

theorem serializableCellList_json_roundtrip (cs : List SerializableCell) :
    serializableCellListOfJson (serializableCellListToJson cs) = some cs := by
  cases cs with
  | nil => simp [serializableCellListToJson, serializableCellListOfJson]
  | cons c cs =>
    simp [serializableCellListToJson, serializableCellListOfJson,
      serializableCell_json_roundtrip c, serializableCellList_json_roundtrip cs]

end

theorem serializableProject_json_roundtrip (p : SerializableProject) :
    serializableProjectOfJson (serializableProjectToJson p) = some p := by
  obtain ⟨id, name, cells, ca, ua⟩ := p
  simp [serializableProjectToJson, serializableProjectOfJson, Json.getField,
    fieldFilter_jstr, fieldFilter_jnum, fieldFilter_jdate, fieldFilter_jarr,
    fieldFilter_jundefined, List.lookup, Json.asString, Json.asInstant, Json.asArr,
    serializableCellList_json_roundtrip]

theorem packet_json_roundtrip (p : Packet) :
    packetOfJson (packetToJson p) = some p := by
  cases p with
  | projectSync q =>
    obtain ⟨ts, project⟩ := q
    simp [packetToJson, packetOfJson, Json.getField, fieldFilter_jstr, fieldFilter_jnum, fieldFilter_jdate, fieldFilter_jarr,
    fieldFilter_jundefined,
      fieldFilter_serializableProjectToJson, List.lookup,
      Json.asString, Json.asInstant, serializableProject_json_roundtrip]
  | cellUpdate q =>
    obtain ⟨ts, cid, cell⟩ := q
    simp [packetToJson, packetOfJson, Json.getField, fieldFilter_jstr, fieldFilter_jnum, fieldFilter_jdate, fieldFilter_jarr,
    fieldFilter_jundefined,
      fieldFilter_serializableCellToJson, List.lookup,
      Json.asString, Json.asInstant, serializableCell_json_roundtrip]
  | cellMove q =>
    obtain ⟨ts, cid, fi, ti⟩ := q
    simp [packetToJson, packetOfJson, Json.getField, fieldFilter_jstr, fieldFilter_jnum, fieldFilter_jdate, fieldFilter_jarr,
    fieldFilter_jundefined, List.lookup,
      Json.asString, Json.asInstant, Json.asInt]
  | cellCreate q =>
    obtain ⟨ts, cell, pcid, idx⟩ := q
    cases pcid <;>
      simp [packetToJson, packetOfJson, Json.getField, fieldFilter_jstr, fieldFilter_jnum, fieldFilter_jdate, fieldFilter_jarr,
    fieldFilter_jundefined,
        fieldFilter_serializableCellToJson, List.lookup, Json.opt,
        Json.asString, Json.asInstant, Json.asInt, getOptStrField,
        serializableCell_json_roundtrip]
  | cellDelete q =>
    obtain ⟨ts, cid, pcid⟩ := q
    cases pcid <;>
      simp [packetToJson, packetOfJson, Json.getField, fieldFilter_jstr, fieldFilter_jnum, fieldFilter_jdate, fieldFilter_jarr,
    fieldFilter_jundefined, List.lookup,
        Json.opt, Json.asString, Json.asInstant, getOptStrField]

/-! ## Supporting lemmas for the claims -/

theorem findCellRecursive_id : ∀ (cells : List Cell) (cid : String) (c : Cell),
    findCellRecursive cells cid = some c → c.id = cid
  | [], cid, c => by
    intro h
    simp [findCellRecursive] at h
  | cell :: rest, cid, c => by
    intro h
    simp only [findCellRecursive] at h
    by_cases hid : cell.id = cid
    · rw [if_pos hid] at h
      cases h
      exact hid
    · rw [if_neg hid] at h
      cases hin : findCellInCell cell cid with
      | some found =>
        rw [hin] at h
        cases h
        cases cell with
        | folder i ca ua nm fcells =>
          simp only [findCellInCell] at hin
          exact findCellRecursive_id fcells cid _ hin
        | equation e => simp [findCellInCell] at hin
        | note i ca ua t => simp [findCellInCell] at hin
      | none =>
        rw [hin] at h
        exact findCellRecursive_id rest cid c h

theorem insertByIndex_ne_nil (x : MetaEntry) (l : List MetaEntry) :
    insertByIndex x l ≠ [] := by
  cases l with
  | nil => simp [insertByIndex]
  | cons y ys =>
    simp only [insertByIndex]
    split <;> simp

theorem jsStableSortByIndex_eq_nil_iff (l : List MetaEntry) :
    jsStableSortByIndex l = [] ↔ l = [] := by
  cases l with
  | nil => simp [jsStableSortByIndex]
  | cons x xs => simp [jsStableSortByIndex, insertByIndex_ne_nil]

theorem lowestIndex_le : ∀ (l : List MetaEntry), ∀ e ∈ l,
    lowestIndex l ≤ e.result.index
  | [] => by intro e he; simp at he
  | [x] => by
    intro e he
    have hex : e = x := by simpa using he
    subst hex
    simp [lowestIndex]
  | x :: y :: ys => by
    intro e he
    rcases List.mem_cons.mp he with rfl | he
    · simp only [lowestIndex]
      exact min_le_left _ _
    · simp only [lowestIndex]
      exact le_trans (min_le_right _ _) (lowestIndex_le (y :: ys) e he)

/-- Head of the stable sort: the first-registered candidate among those with
the lowest priority index. -/
theorem sort_head_first_min : ∀ (l : List MetaEntry), l ≠ [] →
    (jsStableSortByIndex l).head? =
      l.find? (fun e => e.result.index == lowestIndex l)
  | [], h => absurd rfl h
  | [x], _ => by
    simp [jsStableSortByIndex, insertByIndex, lowestIndex, List.find?]
  | x :: y :: ys, _ => by
    have ih := sort_head_first_min (y :: ys) (by simp)
    obtain ⟨z, t, hzt⟩ : ∃ z t, jsStableSortByIndex (y :: ys) = z :: t := by
      cases hs : jsStableSortByIndex (y :: ys) with
      | nil =>
        exact absurd ((jsStableSortByIndex_eq_nil_iff _).mp hs) (by simp)
      | cons z t => exact ⟨z, t, rfl⟩
    rw [hzt] at ih
    have hz : z.result.index = lowestIndex (y :: ys) := by
      have hfind := ih.symm
      have := List.find?_some hfind
      simpa using this
    show (insertByIndex x (jsStableSortByIndex (y :: ys))).head? = _
    rw [hzt]
    by_cases hle : x.result.index ≤ z.result.index
    · have hmin : min x.result.index (lowestIndex (y :: ys)) = x.result.index :=
        min_eq_left (hz ▸ hle)
      simp only [insertByIndex, if_pos hle, List.head?_cons]
      rw [List.find?_cons_of_pos]
      simp [lowestIndex, hmin]
    · have hmin : min x.result.index (lowestIndex (y :: ys)) = lowestIndex (y :: ys) :=
        min_eq_right (le_of_lt (hz ▸ (not_le.mp hle)))
      simp only [insertByIndex, if_neg hle, List.head?_cons]
      rw [List.find?_cons_of_neg]
      · simp only [lowestIndex, hmin]
        exact ih
      · simp only [lowestIndex, hmin, beq_iff_eq]
        rw [← hz]
        omega

/-- With a selected candidate, `updateCellContext` runs exactly its main
call. -/
theorem updateCellContext_selected (px : PythonExecutorService) (now : Date)
    (cell : EquationCell) (inputContext : Context) (sel : MetaEntry)
    (t : List MetaEntry)
    (hsort : jsStableSortByIndex
        ((collectMetaResults px cell inputContext px.availableFunctions).filter
          (fun mr => mr.result.useResult)) = sel :: t) :
    updateCellContext px now cell inputContext =
      runSelectedFunction px now cell inputContext sel := by
  have hus : ((collectMetaResults px cell inputContext px.availableFunctions).filter
      (fun mr => mr.result.useResult)) ≠ [] := by
    intro h0
    rw [h0] at hsort
    simp [jsStableSortByIndex] at hsort
  have hms : collectMetaResults px cell inputContext px.availableFunctions ≠ [] := by
    intro h0
    apply hus
    rw [h0]
    rfl
  have hav : px.availableFunctions ≠ [] := by
    intro h0
    apply hms
    rw [h0]
    rfl
  simp only [updateCellContext]
  rw [if_neg (by simpa using hav), if_neg (by simpa using hms),
    if_neg (by simpa using hus), hsort]

/-- `runSelectedFunction` always issues exactly the selected candidate's main
call. -/
theorem runSelectedFunction_mainCalls (px : PythonExecutorService) (now : Date)
    (cell : EquationCell) (inputContext : Context) (sel : MetaEntry) :
    (runSelectedFunction px now cell inputContext sel).mainCalls =
      [sel.functionName] := by
  simp only [runSelectedFunction]
  cases px.callFunction sel.functionName (createCellFunctionInput cell inputContext) with
  | threw => rfl
  | returned r => cases r <;> rfl

theorem jsSpliceStart_le (start : Int) (len : Nat) : jsSpliceStart start len ≤ len := by
  simp only [jsSpliceStart]
  split
  · omega
  · exact Nat.min_le_right _ _

theorem listInsertAt_length {α : Type} : ∀ (l : List α) (n : Nat) (c : α),
    n ≤ l.length → (listInsertAt l n c).length = l.length + 1
  | l, 0, c => by intro _; cases l <;> simp [listInsertAt]
  | [], n + 1, c => by intro h; simp at h
  | a :: l, n + 1, c => by
    intro h
    simp only [listInsertAt, List.length_cons]
    rw [listInsertAt_length l n c (by simpa using h)]

theorem listInsertAt_getElem {α : Type} : ∀ (l : List α) (n : Nat) (c : α),
    n ≤ l.length → (listInsertAt l n c)[n]? = some c
  | l, 0, c => by intro _; cases l <;> simp [listInsertAt]
  | [], n + 1, c => by intro h; simp at h
  | a :: l, n + 1, c => by
    intro h
    simp only [listInsertAt, List.getElem?_cons_succ]
    exact listInsertAt_getElem l n c (by simpa using h)

theorem firstEquationFromAux_some_of_mem : ∀ (l : List Cell) (i : Nat) (c : Cell),
    c ∈ l → c.isEquation = true →
    ∃ inv, firstEquationFromAux l i = some inv := by
  intro l
  induction l with
  | nil => intro i c hc; simp at hc
  | cons a l ih =>
    intro i c hc he
    by_cases ha : a.isEquation
    · exact ⟨(a.id, i), by simp [firstEquationFromAux, ha]⟩
    · rcases List.mem_cons.mp hc with rfl | hc
      · exact absurd he ha
      · have hrec := ih (i + 1) c hc he
        simpa [firstEquationFromAux, ha] using hrec

/-! ## Claim theorems -/

/-- C1: for every cell array being propagated, when the forward walk reaches
a Folder cell it recursively propagates the folder's children starting at
index 0 seeded with the current running Context, and the Context used for
every cell after that Folder (and the final running Context) equals the
Context the walk held immediately before entering the Folder — nothing
computed inside the Folder alters it: the walk after the folder is identical
for any two folder contents. -/
theorem c1_folder_isolation (px : PythonExecutorService) (now : Date)
    (i : String) (ca ua : Date) (name : String)
    (fcells fcells2 rest : List Cell) (ctx : Context) :
    propagateCells px now (Cell.folder i ca ua name fcells :: rest) ctx =
      (Cell.folder i ca ua name (propagateCells px now fcells ctx).1 ::
        (propagateCells px now rest ctx).1,
        (propagateCells px now rest ctx).2) ∧
    (propagateCells px now (Cell.folder i ca ua name fcells :: rest) ctx).1.tail =
      (propagateCells px now (Cell.folder i ca ua name fcells2 :: rest) ctx).1.tail := by
  constructor
  · simp [propagateCells]
  · simp [propagateCells]

/-- C5: for every Cell (including arbitrarily nested Folders) and for every
Packet, deserializing the serialized form yields the original value; Date
fields round-trip losslessly through their ISO-string representation
(see `ISOString`). -/
theorem c5_serialization_roundtrip :
    (∀ c : Cell, CellSerializer.deserialize (CellSerializer.serialize c) = .ok c) ∧
    (∀ p : Packet, PacketFactory.deserialize (PacketFactory.serialize p) = some p) :=
  ⟨cell_serialize_roundtrip, fun p => packet_json_roundtrip p⟩

/-- C9: after an inbound CellUpdate packet is applied (refreshing the cell's
cached structural fingerprint), a subsequent local update check for the same
cell with no intervening local edit finds the fingerprint unchanged and emits
no outbound CellUpdate packet. -/
theorem c9_echo_suppression (projectCells : List Cell) (cellStates : CellStatesMap)
    (cellId : String) (ready connected processing : Bool) :
    onCellUpdatedSends projectCells
      (onInboundCellUpdate projectCells cellStates cellId) cellId
      ready connected processing = false := by
  cases hf : findCellRecursive projectCells cellId with
  | none =>
    cases ready <;>
      simp [onCellUpdatedSends, onInboundCellUpdate, hf]
  | some cell =>
    have hid : cell.id = cellId := findCellRecursive_id _ _ _ hf
    cases ready <;>
      simp [onCellUpdatedSends, onInboundCellUpdate, hf, hasCellChanged,
        cellStatesSet, hid]

/-- C2 counterexample: with one registered function whose meta call resolves
without any result (so no meta-call produces a result at all), the equation
cell's stored Context keeps its previous value `ctxX` instead of becoming the
input Context, refuting the claim's "the cell's stored Context becomes
exactly C" for that case. -/
theorem c2_counterexample :
    (updateCellContext pxNoResult ⟨0⟩ cellWithCtxX emptyContext).cell.context
        ≠ some emptyContext ∧
    (updateCellContext pxNoResult ⟨0⟩ cellWithCtxX emptyContext).cell.context
        = some ctxX := by
  constructor <;> decide

/-- C2 (amended): if no meta-call answers `useResult = true`, Function
Resolution returns the input Context, the solution list is unchanged, and no
main call is issued; the stored Context becomes exactly the input Context
when at least one meta-call produced a (unusable) result, but when no
meta-call produces any result at all the cell — stored Context included — is
left completely untouched. -/
theorem c2_pass_through (px : PythonExecutorService) (now : Date)
    (cell : EquationCell) (inputContext : Context)
    (h : (collectMetaResults px cell inputContext px.availableFunctions).filter
        (fun mr => mr.result.useResult) = []) :
    updateCellContext px now cell inputContext =
      ⟨if collectMetaResults px cell inputContext px.availableFunctions = []
          then cell
          else { cell with context := some inputContext },
        inputContext, []⟩ := by
  by_cases h0 : px.availableFunctions.isEmpty
  · have hav : px.availableFunctions = [] := by simpa using h0
    have hms : collectMetaResults px cell inputContext px.availableFunctions = [] := by
      rw [hav]
      rfl
    simp [updateCellContext, h0, hms]
  · by_cases h1 : (collectMetaResults px cell inputContext px.availableFunctions).isEmpty
    · have hms : collectMetaResults px cell inputContext px.availableFunctions = [] := by
        simpa using h1
      simp [updateCellContext, h0, h1, hms]
    · have hms : ¬ collectMetaResults px cell inputContext px.availableFunctions = [] := by
        simpa using h1
      have h2 : ((collectMetaResults px cell inputContext px.availableFunctions).filter
          (fun mr => mr.result.useResult)).isEmpty := by
        rw [h]
        rfl
      simp [updateCellContext, h0, h1, h2, hms]

/-- C2 witness: a concrete executor whose single meta call answers
`useResult = false`, at a cell with a previously stored context. -/
theorem c2_witness :
    ((collectMetaResults pxAllUnusable cellWithCtxX emptyContext
        pxAllUnusable.availableFunctions).filter
      (fun mr => mr.result.useResult) = []) ∧
    updateCellContext pxAllUnusable ⟨0⟩ cellWithCtxX emptyContext =
      ⟨if collectMetaResults pxAllUnusable cellWithCtxX emptyContext
            pxAllUnusable.availableFunctions = []
          then cellWithCtxX
          else { cellWithCtxX with context := some emptyContext },
        emptyContext, []⟩ :=
  ⟨by decide, c2_pass_through pxAllUnusable ⟨0⟩ cellWithCtxX emptyContext (by decide)⟩

/-- C3: when candidates with `useResult = true` exist, the main call goes to
exactly the first-registered candidate among those with the lowest priority
index (the stable sort's head). -/
theorem c3_priority_selection (px : PythonExecutorService) (now : Date)
    (cell : EquationCell) (inputContext : Context)
    (h : (collectMetaResults px cell inputContext px.availableFunctions).filter
        (fun mr => mr.result.useResult) ≠ []) :
    ∃ sel : MetaEntry,
      ((collectMetaResults px cell inputContext px.availableFunctions).filter
          (fun mr => mr.result.useResult)).find?
        (fun e => e.result.index ==
          lowestIndex ((collectMetaResults px cell inputContext
            px.availableFunctions).filter (fun mr => mr.result.useResult)))
        = some sel ∧
      (∀ e ∈ (collectMetaResults px cell inputContext px.availableFunctions).filter
          (fun mr => mr.result.useResult), sel.result.index ≤ e.result.index) ∧
      (updateCellContext px now cell inputContext).mainCalls = [sel.functionName] := by
  obtain ⟨sel, t, hsort⟩ : ∃ sel t,
      jsStableSortByIndex
        ((collectMetaResults px cell inputContext px.availableFunctions).filter
          (fun mr => mr.result.useResult)) = sel :: t := by
    cases hs : jsStableSortByIndex
        ((collectMetaResults px cell inputContext px.availableFunctions).filter
          (fun mr => mr.result.useResult)) with
    | nil => exact absurd ((jsStableSortByIndex_eq_nil_iff _).mp hs) h
    | cons a b => exact ⟨a, b, rfl⟩
  have hhead := sort_head_first_min _ h
  rw [hsort] at hhead
  have hfind : ((collectMetaResults px cell inputContext px.availableFunctions).filter
      (fun mr => mr.result.useResult)).find?
        (fun e => e.result.index ==
          lowestIndex ((collectMetaResults px cell inputContext
            px.availableFunctions).filter (fun mr => mr.result.useResult)))
      = some sel := by
    simpa using hhead.symm
  refine ⟨sel, hfind, ?_, ?_⟩
  · intro e he
    have hsel : sel.result.index =
        lowestIndex ((collectMetaResults px cell inputContext
          px.availableFunctions).filter (fun mr => mr.result.useResult)) := by
      have := List.find?_some hfind
      simpa using this
    rw [hsel]
    exact lowestIndex_le _ e he
  · rw [updateCellContext_selected px now cell inputContext sel t hsort]
    exact runSelectedFunction_mainCalls px now cell inputContext sel

/-- C3 witness: candidates with usable results at priority indices
`[5, 2, 2, 9]` in registration order; the first-registered of the tied pair
at index 2 is selected. -/
theorem c3_witness :
    ((collectMetaResults pxPriorities cellWithCtxX emptyContext
        pxPriorities.availableFunctions).filter
      (fun mr => mr.result.useResult) ≠ []) ∧
    ∃ sel : MetaEntry,
      ((collectMetaResults pxPriorities cellWithCtxX emptyContext
          pxPriorities.availableFunctions).filter
          (fun mr => mr.result.useResult)).find?
        (fun e => e.result.index ==
          lowestIndex ((collectMetaResults pxPriorities cellWithCtxX emptyContext
            pxPriorities.availableFunctions).filter (fun mr => mr.result.useResult)))
        = some sel ∧
      (∀ e ∈ (collectMetaResults pxPriorities cellWithCtxX emptyContext
          pxPriorities.availableFunctions).filter (fun mr => mr.result.useResult),
        sel.result.index ≤ e.result.index) ∧
      (updateCellContext pxPriorities ⟨0⟩ cellWithCtxX emptyContext).mainCalls
        = [sel.functionName] :=
  ⟨by decide,
    c3_priority_selection pxPriorities ⟨0⟩ cellWithCtxX emptyContext (by decide)⟩

/-- C8 counterexample: when the selected candidate's main call throws, the
cell keeps its previous stored Context — it is *not* left in the
zero-usable-candidates outcome of step 3, which would store the preceding
Context. -/
theorem c8_counterexample :
    (updateCellContext pxMainThrows ⟨0⟩ cellWithCtxX emptyContext).cell ≠
      { cellWithCtxX with context := some emptyContext } ∧
    updateCellContext pxMainThrows ⟨0⟩ cellWithCtxX emptyContext =
      ⟨cellWithCtxX, emptyContext, ["solve"]⟩ := by
  constructor <;> decide

/-- C8 (amended): an executor error on the selected main call is absorbed
(resolution still returns a value and the error never escapes), resolution
returns the preceding Context unchanged, and the cell is left completely
untouched — its stored Context and solutions keep their previous values
(this matches step 3's outcome in the returned context only, not in the
stored one). -/
theorem c8_main_call_error (px : PythonExecutorService) (now : Date)
    (cell : EquationCell) (inputContext : Context) (sel : MetaEntry)
    (t : List MetaEntry)
    (hsort : jsStableSortByIndex
        ((collectMetaResults px cell inputContext px.availableFunctions).filter
          (fun mr => mr.result.useResult)) = sel :: t)
    (herr : px.callFunction sel.functionName
        (createCellFunctionInput cell inputContext) = .threw) :
    updateCellContext px now cell inputContext =
      ⟨cell, inputContext, [sel.functionName]⟩ := by
  rw [updateCellContext_selected px now cell inputContext sel t hsort]
  simp [runSelectedFunction, herr]

/-- C8 witness: a concrete executor whose single usable candidate's main
call throws. -/
theorem c8_witness :
    (jsStableSortByIndex ((collectMetaResults pxMainThrows cellWithCtxX emptyContext
        pxMainThrows.availableFunctions).filter (fun mr => mr.result.useResult))
      = [⟨⟨0, "solve", true⟩, "solve"⟩]) ∧
    (pxMainThrows.callFunction "solve"
        (createCellFunctionInput cellWithCtxX emptyContext) = .threw) ∧
    updateCellContext pxMainThrows ⟨0⟩ cellWithCtxX emptyContext =
      ⟨cellWithCtxX, emptyContext, ["solve"]⟩ :=
  ⟨by decide, by decide,
    c8_main_call_error pxMainThrows ⟨0⟩ cellWithCtxX emptyContext
      ⟨⟨0, "solve", true⟩, "solve"⟩ [] (by decide) (by decide)⟩

/-- C7: a CellMove packet whose target cell exists but whose destination
index is negative or at least the containing array's length is rejected: the
cell tree is completely unchanged, no propagation is triggered, and an error
is surfaced on the error channel. -/
theorem c7_move_out_of_bounds_rejected (cells : List Cell)
    (packet : CellMovePacket) (p : List Nat) (i : Nat)
    (hfind : findCellPath cells packet.cellId = some (p, i))
    (hoob : packet.toIndex < 0 ∨
      ((((arrayAtPath cells p).getD []).length : Int) ≤ packet.toIndex)) :
    handleCellMove cells packet = ⟨cells, ["Invalid toIndex"], []⟩ := by
  simp [handleCellMove, hfind, hoob]

/-- C7 witness: moving `"A"` to index 5 in a three-element array. -/
theorem c7_witness :
    (findCellPath exampleCells exampleMoveOob.cellId = some ([], 0)) ∧
    (exampleMoveOob.toIndex < 0 ∨
      ((((arrayAtPath exampleCells []).getD []).length : Int)
        ≤ exampleMoveOob.toIndex)) ∧
    handleCellMove exampleCells exampleMoveOob =
      ⟨exampleCells, ["Invalid toIndex"], []⟩ :=
  ⟨by decide, by decide,
    c7_move_out_of_bounds_rejected exampleCells exampleMoveOob [] 0
      (by decide) (by decide)⟩

/-- C10: a CellCreate packet whose payload decodes and whose target array
resolves is always applied, with the splice-clamped index: no error is
surfaced, no propagation is triggered, the array grows by one, the new cell
sits at the clamped position, an index beyond the length appends at the end,
and a negative index counts from the end. -/
theorem c10_create_always_inserts (cells : List Cell) (packet : CellCreatePacket)
    (newCell : Cell) (ap : List Nat) (parentArray : List Cell)
    (hde : CellSerializer.deserialize packet.cell = .ok newCell)
    (hres : resolveCreateTarget cells packet.parentCellId = some (ap, parentArray)) :
    handleCellCreate cells packet =
      ⟨replaceArrayAtPath cells ap
          (listInsertAt parentArray
            (jsSpliceStart packet.index parentArray.length) newCell),
        [], []⟩ ∧
    (listInsertAt parentArray
        (jsSpliceStart packet.index parentArray.length) newCell).length
      = parentArray.length + 1 ∧
    (listInsertAt parentArray
        (jsSpliceStart packet.index parentArray.length) newCell)[
      jsSpliceStart packet.index parentArray.length]? = some newCell ∧
    ((parentArray.length : Int) ≤ packet.index →
      jsSpliceStart packet.index parentArray.length = parentArray.length) ∧
    (packet.index < 0 →
      jsSpliceStart packet.index parentArray.length
        = ((parentArray.length : Int) + packet.index).toNat) := by
  refine ⟨?_, ?_, ?_, ?_, ?_⟩
  · simp [handleCellCreate, hde, hres, spliceInsert]
  · exact listInsertAt_length _ _ _ (jsSpliceStart_le _ _)
  · exact listInsertAt_getElem _ _ _ (jsSpliceStart_le _ _)
  · intro hge
    have h0 : ¬ packet.index < 0 := by omega
    simp only [jsSpliceStart, if_neg h0]
    exact min_eq_right (by omega)
  · intro hlt
    simp only [jsSpliceStart, if_pos hlt]

/-- C10 witness: creating a serialized note cell at the far out-of-bounds
index 99 of the three-element root array. -/
theorem c10_witness :
    (CellSerializer.deserialize exampleCreate.cell
      = .ok (Cell.note "N" ⟨0⟩ ⟨0⟩ "hi")) ∧
    (resolveCreateTarget exampleCells exampleCreate.parentCellId
      = some ([], exampleCells)) ∧
    (handleCellCreate exampleCells exampleCreate =
      ⟨replaceArrayAtPath exampleCells []
          (listInsertAt exampleCells
            (jsSpliceStart exampleCreate.index exampleCells.length)
            (Cell.note "N" ⟨0⟩ ⟨0⟩ "hi")),
        [], []⟩ ∧
    (listInsertAt exampleCells
        (jsSpliceStart exampleCreate.index exampleCells.length)
        (Cell.note "N" ⟨0⟩ ⟨0⟩ "hi")).length = exampleCells.length + 1 ∧
    (listInsertAt exampleCells
        (jsSpliceStart exampleCreate.index exampleCells.length)
        (Cell.note "N" ⟨0⟩ ⟨0⟩ "hi"))[
      jsSpliceStart exampleCreate.index exampleCells.length]?
      = some (Cell.note "N" ⟨0⟩ ⟨0⟩ "hi") ∧
    ((exampleCells.length : Int) ≤ exampleCreate.index →
      jsSpliceStart exampleCreate.index exampleCells.length
        = exampleCells.length) ∧
    (exampleCreate.index < 0 →
      jsSpliceStart exampleCreate.index exampleCells.length
        = ((exampleCells.length : Int) + exampleCreate.index).toNat)) :=
  ⟨by rfl, by rfl,
    c10_create_always_inserts exampleCells exampleCreate
      (Cell.note "N" ⟨0⟩ ⟨0⟩ "hi") [] exampleCells (by rfl) (by rfl)⟩

/-- C4 counterexample: an inbound CellUpdate packet is applied successfully
(no error surfaced) yet triggers no propagation-engine invocation at all,
refuting "every applied remote packet triggers a recomputation". -/
theorem c4_counterexample :
    (handleCellUpdate exampleCells exampleUpdate).errors = [] ∧
    (handleCellUpdate exampleCells exampleUpdate).propagations = [] := by
  constructor <;> decide

/-- C4 (amended): applied remote mutations do not in general trigger the
Propagation Engine: CellUpdate, CellCreate and CellDelete never invoke it,
and a CellMove invokes it only when the moved cell is an Equation cell. -/
theorem c4_only_equation_moves_propagate (cells : List Cell)
    (pu : CellUpdatePacket) (pc : CellCreatePacket) (pd : CellDeletePacket)
    (pm : CellMovePacket) :
    (handleCellUpdate cells pu).propagations = [] ∧
    (handleCellCreate cells pc).propagations = [] ∧
    (handleCellDelete cells pd).propagations = [] ∧
    ((handleCellMove cells pm).propagations = [] ∨
      ∃ p i cell, findCellPath cells pm.cellId = some (p, i) ∧
        ((arrayAtPath cells p).getD [])[i]? = some cell ∧
        cell.isEquation = true) := by
  refine ⟨?_, ?_, ?_, ?_⟩
  · cases hf : findCellPath cells pu.cellId with
    | none => simp [handleCellUpdate, hf]
    | some pi =>
      obtain ⟨p, i⟩ := pi
      cases hd : CellSerializer.deserialize pu.cell with
      | error e => simp [handleCellUpdate, hf, hd]
      | ok c => simp [handleCellUpdate, hf, hd]
  · cases hd : CellSerializer.deserialize pc.cell with
    | error e => simp [handleCellCreate, hd]
    | ok c =>
      cases hr : resolveCreateTarget cells pc.parentCellId with
      | none => simp [handleCellCreate, hd, hr]
      | some t =>
        obtain ⟨ap, arr⟩ := t
        simp [handleCellCreate, hd, hr]
  · cases hf : findCellPath cells pd.cellId with
    | none => simp [handleCellDelete, hf]
    | some pi =>
      obtain ⟨p, i⟩ := pi
      simp [handleCellDelete, hf]
  · cases hf : findCellPath cells pm.cellId with
    | none =>
      left
      simp [handleCellMove, hf]
    | some pi =>
      obtain ⟨p, i⟩ := pi
      by_cases hoob : pm.toIndex < 0 ∨
          ((((arrayAtPath cells p).getD []).length : Int) ≤ pm.toIndex)
      · left
        simp [handleCellMove, hf, hoob]
      · cases hc : ((arrayAtPath cells p).getD [])[i]? with
        | none =>
          left
          simp [handleCellMove, hf, hoob, hc]
        | some cell =>
          by_cases he : cell.isEquation
          · right
            exact ⟨p, i, cell, rfl, hc, he⟩
          · left
            simp [handleCellMove, hf, hoob, hc, he]

/-- C6 counterexample: moving the Equation cell `"A"` from index 0 to index 2
in `[Eq "A", Folder "F" [Eq "C"], Eq "B"]` makes the handler invoke
`updateContext` on cell `"B"` at index 1 — the first equation cell at or
after min(0, 2) — so propagation starts at index 1, not at
min(sourceIndex, destIndex) = 0 (the folder at index 0 is skipped and its
children are not re-propagated). -/
theorem c6_counterexample :
    (handleCellMove exampleCells exampleMove).propagations = [("B", 1)] ∧
    (∀ inv ∈ (handleCellMove exampleCells exampleMove).propagations,
      inv.2 ≠ min 0 2) := by
  constructor <;> decide

/-- C6 (amended): for every applied CellMove (target found, destination in
bounds), the handler invokes `updateContext` on the *first Equation cell at
or after* min(actual source index, destination index) of the affected array
— propagation starts at that cell's position, not at the min index itself —
and it does so exactly when the moved cell is an Equation cell: an equation
move always records an invocation, and a Folder or Note move records
none. -/
theorem c6_move_propagation (cells : List Cell) (packet : CellMovePacket)
    (p : List Nat) (i : Nat) (parentArray : List Cell) (cell : Cell)
    (hfind : findCellPath cells packet.cellId = some (p, i))
    (harr : arrayAtPath cells p = some parentArray)
    (hcell : parentArray[i]? = some cell)
    (hin : 0 ≤ packet.toIndex ∧ packet.toIndex < (parentArray.length : Int)) :
    (handleCellMove cells packet).propagations =
      (if cell.isEquation
        then propagateContextFromIndex
          (spliceInsert (parentArray.eraseIdx i) packet.toIndex cell)
          (min i packet.toIndex.toNat)
        else []) ∧
    (cell.isEquation = true →
      (handleCellMove cells packet).propagations ≠ []) := by
  have hno : ¬ (packet.toIndex < 0 ∨ ((parentArray.length : Int) ≤ packet.toIndex)) := by
    omega
  have hmain : (handleCellMove cells packet).propagations =
      (if cell.isEquation
        then propagateContextFromIndex
          (spliceInsert (parentArray.eraseIdx i) packet.toIndex cell)
          (min i packet.toIndex.toNat)
        else []) := by
    simp [handleCellMove, hfind, harr, hno, hcell]
  refine ⟨hmain, ?_⟩
  intro he
  rw [hmain, if_pos he]
  have hlt : i < parentArray.length := by
    by_contra hige
    rw [List.getElem?_eq_none (Nat.le_of_not_lt hige)] at hcell
    cases hcell
  have hlenr : (parentArray.eraseIdx i).length = parentArray.length - 1 := by
    rw [List.length_eraseIdx]
    simp [hlt]
  have hk : jsSpliceStart packet.toIndex (parentArray.eraseIdx i).length
      = packet.toIndex.toNat := by
    have h0 : ¬ packet.toIndex < 0 := by omega
    simp only [jsSpliceStart, if_neg h0]
    rw [hlenr]
    exact min_eq_left (by omega)
  have hins : (spliceInsert (parentArray.eraseIdx i) packet.toIndex cell)[
      packet.toIndex.toNat]? = some cell := by
    have hget := listInsertAt_getElem (parentArray.eraseIdx i)
      (jsSpliceStart packet.toIndex (parentArray.eraseIdx i).length) cell
      (jsSpliceStart_le _ _)
    rw [hk] at hget
    simpa [spliceInsert, hk] using hget
  have hmem : cell ∈ (spliceInsert (parentArray.eraseIdx i) packet.toIndex cell).drop
      (min i packet.toIndex.toNat) := by
    have hdrop : ((spliceInsert (parentArray.eraseIdx i) packet.toIndex cell).drop
        (min i packet.toIndex.toNat))[
          packet.toIndex.toNat - min i packet.toIndex.toNat]? = some cell := by
      rw [List.getElem?_drop]
      have harith : min i packet.toIndex.toNat +
          (packet.toIndex.toNat - min i packet.toIndex.toNat)
          = packet.toIndex.toNat := by omega
      rw [harith]
      exact hins
    exact List.getElem?_mem hdrop
  obtain ⟨inv, hinv⟩ :=
    firstEquationFromAux_some_of_mem _ (min i packet.toIndex.toNat) cell hmem he
  simp [propagateContextFromIndex, hinv]

/-- C6 witness: the concrete move of `"A"` from index 0 to 2 past a folder,
instantiating the amended statement. -/
theorem c6_witness :
    (findCellPath exampleCells exampleMove.cellId = some ([], 0)) ∧
    (arrayAtPath exampleCells [] = some exampleCells) ∧
    (exampleCells[0]? = some (eqCell "A")) ∧
    (0 ≤ exampleMove.toIndex ∧ exampleMove.toIndex < (exampleCells.length : Int)) ∧
    ((handleCellMove exampleCells exampleMove).propagations =
      (if (eqCell "A").isEquation
        then propagateContextFromIndex
          (spliceInsert (exampleCells.eraseIdx 0) exampleMove.toIndex (eqCell "A"))
          (min 0 exampleMove.toIndex.toNat)
        else []) ∧
    ((eqCell "A").isEquation = true →
      (handleCellMove exampleCells exampleMove).propagations ≠ [])) :=
  ⟨by rfl, by rfl, by rfl, by decide,
    c6_move_propagation exampleCells exampleMove [] 0 exampleCells (eqCell "A")
      (by rfl) (by rfl) (by rfl) (by decide)⟩

end AlphaSolve
